import Mathlib

/-!
Verification of the Mint-Token airdrop contracts.

The development embeds, from the Solidity sources and the TypeScript
Merkle-tree generator:
* `B32` — 32-byte words as a free algebra over keccak256 applications
  (collision resistance is modelled by constructor injectivity);
* OpenZeppelin `MerkleProof.verify` / `processProof` / `_hashPair`;
* the merkletreejs tree builder used by `scripts/generateMerkle.ts` and
  `scripts/merkle/generateMerkle.ts` (option `sortPairs: true`, odd last
  node promoted to the next layer) together with `getProof`;
* the three contract variants: `AirdropWithAccessControl` (AWAC),
  the upgradeable `Airdrop`, and the indexed `MerkleDistributor` (MD),
  each as a state structure plus operations returning
  `Except Err (State × List Eff)`; a reverted call yields `.error` and,
  per EVM transaction semantics, leaves the pre-state in force
  (`run` returns the old state on error).
-/

/-- 32-byte words as a free algebra: `U n` is an uninterpreted word,
`leafAA a m` is `keccak256(abi.encodePacked(address a, uint256 m))`,
`leafIAA i a m` is `keccak256(abi.encodePacked(uint256 i, address a, uint256 m))`,
`pairHash x y` is `keccak256(x ‖ y)`.  The four constructors produce
byte strings of pairwise distinct lengths (32/52/84/64-byte inputs), so
modelling keccak256 as jointly injective on them is sound under
collision resistance. -/
inductive B32 : Type where
  | U : Nat → B32
  | leafAA : Nat → Nat → B32
  | leafIAA : Nat → Nat → Nat → B32
  | pairHash : B32 → B32 → B32
deriving DecidableEq

/-- Injective numeric code of a `B32` word; stands in for the value of the
32-byte word read as a big-endian unsigned integer, which is how both
OpenZeppelin (`a < b` on `bytes32`) and merkletreejs (`Buffer.compare`)
order words before hashing a pair. -/
def B32.encode : B32 → Nat
  | .U n => 4 * n
  | .leafAA a m => 4 * Nat.pair a m + 1
  | .leafIAA i a m => 4 * Nat.pair i (Nat.pair a m) + 2
  | .pairHash x y => 4 * Nat.pair x.encode y.encode + 3

/-- Strict order on words, as OpenZeppelin compares `bytes32` values. -/
def B32.bLt (a b : B32) : Bool := Nat.blt a.encode b.encode

/-- Non-strict order on words, as `Buffer.compare`-based sorting orders them. -/
def B32.bLe (a b : B32) : Bool := Nat.ble a.encode b.encode

/-- OpenZeppelin `MerkleProof._hashPair`: hash the concatenation of the two
words in ascending order (`a < b ? keccak(a‖b) : keccak(b‖a)`). -/
def ozHashPair (a b : B32) : B32 :=
  if B32.bLt a b then B32.pairHash a b else B32.pairHash b a

/-- merkletreejs pair combination under `sortPairs: true`: sort the two
words ascending (stable, so the given order is kept on ties), concatenate,
hash. -/
def mtjsPairHash (a b : B32) : B32 :=
  if B32.bLe a b then B32.pairHash a b else B32.pairHash b a

/-- OpenZeppelin `MerkleProof.processProof`: fold the proof elements into
the running hash starting from the leaf. -/
def processProof (leaf : B32) (proof : List B32) : B32 :=
  proof.foldl ozHashPair leaf

/-- OpenZeppelin `MerkleProof.verify`: the recomputed root must equal the
committed root. -/
def verify (proof : List B32) (root leaf : B32) : Bool :=
  processProof leaf proof == root

/-- A side-annotated recomputation: each proof element carries a flag saying
whether the sibling is placed on the left.  Used to state that the sorted
pairing makes the recomputed root independent of sibling placement. -/
def processProofSided (leaf : B32) (proof : List (B32 × Bool)) : B32 :=
  proof.foldl (fun h p => if p.2 then ozHashPair p.1 h else ozHashPair h p.1) leaf

/-- One layer step of the merkletreejs tree builder: combine adjacent pairs
with the sorted pairing; an odd last node is promoted unchanged
(default `duplicateOdd: false`). -/
def buildLayer : List B32 → List B32
  | a :: b :: rest => mtjsPairHash a b :: buildLayer rest
  | l => l

/-- Fuel-indexed iteration of `buildLayer` down to the root.  The fuel is
only a termination device; `l.length` steps always suffice. -/
def buildRootAux : Nat → List B32 → B32
  | _, [] => B32.U 0
  | _, [a] => a
  | 0, a :: _ :: _ => a
  | n + 1, a :: b :: rest => buildRootAux n (buildLayer (a :: b :: rest))

/-- Root of the merkletreejs tree over the given leaves. -/
def buildRoot (l : List B32) : B32 := buildRootAux l.length l

/-- The sibling contribution to a proof: one element when the sibling
exists in the layer, nothing otherwise. -/
def sibList : Option B32 → List B32
  | some s => [s]
  | none => []

/-- Fuel-indexed merkletreejs `getProof`: at each layer push the sibling of
the current index when it exists (a promoted odd node has none), then move
to the parent index. -/
def getProofAux : Nat → List B32 → Nat → List B32
  | _, [], _ => []
  | _, [_], _ => []
  | 0, _ :: _ :: _, _ => []
  | n + 1, a :: b :: rest, idx =>
    sibList (if idx % 2 = 0 then (a :: b :: rest)[idx + 1]? else (a :: b :: rest)[idx - 1]?) ++
      getProofAux n (buildLayer (a :: b :: rest)) (idx / 2)

/-- merkletreejs proof for the leaf at a given position. -/
def getProof (l : List B32) (idx : Nat) : List B32 := getProofAux l.length l idx

/-- merkletreejs `getHexProof(leafValue)`: the leaf is located by value
(first occurrence), as the generator scripts call it. -/
def getProofForLeaf (l : List B32) (v : B32) : List B32 :=
  getProof l (l.indexOf v)

/-- Typed revert reasons of the three contracts (custom errors and
`require` messages). -/
inductive Err : Type where
  | AirdropPaused
  | AlreadyClaimed
  | InvalidProof
  | ExceedsMaxClaimAmount
  | ZeroAmount
  | Unauthorized
  | MintRevert
  | MathOverflow
  | TransferFailed
  | MDAlreadyClaimed
  | MDInvalidProof
deriving DecidableEq

/-- Observable effects of a successful call: emitted events and the
external token calls made on the way. -/
inductive Eff : Type where
  | claimedEvt : Nat → Nat → Eff
  | airdropClaimedEvt : Nat → Nat → Eff
  | mdClaimedEvt : Nat → Nat → Nat → Eff
  | mintCall : Nat → Nat → Eff
  | transferCall : Nat → Nat → Eff
  | pausedEvt : Nat → Eff
  | unpausedEvt : Nat → Eff
  | maxClaimAmountUpdatedEvt : Nat → Nat → Eff
  | emergencyWithdrawEvt : Nat → Nat → Eff
  | merkleRootUpdatedEvt : B32 → Eff
deriving DecidableEq

/-- External-world parameters of a call: whether the token `mint` and
`transfer` calls succeed, and the airdrop contract's own token balance.
The contracts do not control these; they are inputs of each transaction. -/
structure ChainEnv where
  mintOk : Nat → Nat → Bool
  transferOk : Nat → Nat → Bool
  selfBalance : Nat

/-- `2 ^ 256`; Solidity 0.8 checked arithmetic reverts when a `uint256`
sum reaches this bound. -/
def UINT256_MOD : Nat := 2 ^ 256

/-- The four roles of `AirdropWithAccessControl`. -/
inductive AWACRole : Type where
  | defaultAdmin
  | admin
  | pauser
  | claimManager
deriving DecidableEq

/-- Storage of `AirdropWithAccessControl` (addresses are modelled as `Nat`). -/
structure AWACState where
  tokenAddr : Nat
  merkleRoot : B32
  isClaimed : Nat → Bool
  isPaused : Bool
  totalClaimed : Nat
  maxClaimAmount : Nat
  roles : AWACRole → Nat → Bool

/-- State after the `AirdropWithAccessControl` constructor: nothing claimed,
not paused, `maxClaimAmount = 1000e18`, all four roles granted to the
deployer. -/
def AWAC.deploy (tokenAddr : Nat) (root : B32) (sender : Nat) : AWACState where
  tokenAddr := tokenAddr
  merkleRoot := root
  isClaimed := fun _ => false
  isPaused := false
  totalClaimed := 0
  maxClaimAmount := 1000 * 10 ^ 18
  roles := fun _ a => a == sender

/-- `AirdropWithAccessControl.claim`.  The Solidity body writes
`isClaimed`/`totalClaimed` and then calls `mint`; a revert of the checked
addition or of the external `mint` rolls the whole transaction back, which
the embedding renders by returning `.error` before producing any state. -/
def AWAC.claim (mintOk : Nat → Nat → Bool) (s : AWACState) (caller amount : Nat)
    (proof : List B32) : Except Err (AWACState × List Eff) :=
  if s.isPaused then .error .AirdropPaused
  else if s.isClaimed caller then .error .AlreadyClaimed
  else if amount = 0 then .error .ZeroAmount
  else if s.maxClaimAmount < amount then .error .ExceedsMaxClaimAmount
  else if !verify proof s.merkleRoot (B32.leafAA caller amount) then .error .InvalidProof
  else if UINT256_MOD ≤ s.totalClaimed + amount then .error .MathOverflow
  else if !mintOk caller amount then .error .MintRevert
  else .ok ({ s with
                isClaimed := fun a => if a = caller then true else s.isClaimed a,
                totalClaimed := s.totalClaimed + amount },
            [Eff.mintCall caller amount, Eff.claimedEvt caller amount])

/-- `AirdropWithAccessControl.canClaim`: read-only re-check, same guards in
the same order as `claim`, no mutation. -/
def AWAC.canClaim (s : AWACState) (account amount : Nat) (proof : List B32) : Bool :=
  if s.isPaused then false
  else if s.isClaimed account then false
  else if amount = 0 then false
  else if s.maxClaimAmount < amount then false
  else verify proof s.merkleRoot (B32.leafAA account amount)

/-- `AccessControl._grantRole` (the boolean return value is unused by the
contract). -/
def AWAC.grantRoleImpl (s : AWACState) (r : AWACRole) (a : Nat) : AWACState :=
  { s with roles := fun r2 a2 => if r2 = r ∧ a2 = a then true else s.roles r2 a2 }

/-- `AccessControl._revokeRole`. -/
def AWAC.revokeRoleImpl (s : AWACState) (r : AWACRole) (a : Nat) : AWACState :=
  { s with roles := fun r2 a2 => if r2 = r ∧ a2 = a then false else s.roles r2 a2 }

/-- `AirdropWithAccessControl.pause` (`onlyRole(PAUSER_ROLE)`). -/
def AWAC.pause (s : AWACState) (caller : Nat) : Except Err (AWACState × List Eff) :=
  if s.roles AWACRole.pauser caller then
    .ok ({ s with isPaused := true }, [Eff.pausedEvt caller])
  else .error .Unauthorized

/-- `AirdropWithAccessControl.unpause` (`onlyRole(PAUSER_ROLE)`). -/
def AWAC.unpause (s : AWACState) (caller : Nat) : Except Err (AWACState × List Eff) :=
  if s.roles AWACRole.pauser caller then
    .ok ({ s with isPaused := false }, [Eff.unpausedEvt caller])
  else .error .Unauthorized

/-- `AirdropWithAccessControl.setMaxClaimAmount` (`onlyRole(ADMIN_ROLE)`). -/
def AWAC.setMaxClaimAmount (s : AWACState) (caller v : Nat) :
    Except Err (AWACState × List Eff) :=
  if s.roles AWACRole.admin caller then
    .ok ({ s with maxClaimAmount := v },
         [Eff.maxClaimAmountUpdatedEvt s.maxClaimAmount v])
  else .error .Unauthorized

/-- `AirdropWithAccessControl.emergencyWithdraw` (`onlyRole(ADMIN_ROLE)`):
clamps the requested amount to the contract's token balance; the `transfer`
return value is not checked, but a reverting token call aborts the
transaction. -/
def AWAC.emergencyWithdraw (env : ChainEnv) (s : AWACState) (caller amount : Nat) :
    Except Err (AWACState × List Eff) :=
  if s.roles AWACRole.admin caller then
    let amt := if env.selfBalance < amount then env.selfBalance else amount
    if 0 < amt then
      if env.transferOk caller amt then
        .ok (s, [Eff.transferCall caller amt, Eff.emergencyWithdrawEvt s.tokenAddr amt])
      else .error .TransferFailed
    else .ok (s, [])
  else .error .Unauthorized

/-- `grantAdminRole` (`onlyRole(DEFAULT_ADMIN_ROLE)`). -/
def AWAC.grantAdminRole (s : AWACState) (caller target : Nat) :
    Except Err (AWACState × List Eff) :=
  if s.roles AWACRole.defaultAdmin caller then
    .ok (AWAC.grantRoleImpl s AWACRole.admin target, [])
  else .error .Unauthorized

/-- `revokeAdminRole` (`onlyRole(DEFAULT_ADMIN_ROLE)`). -/
def AWAC.revokeAdminRole (s : AWACState) (caller target : Nat) :
    Except Err (AWACState × List Eff) :=
  if s.roles AWACRole.defaultAdmin caller then
    .ok (AWAC.revokeRoleImpl s AWACRole.admin target, [])
  else .error .Unauthorized

/-- `grantPauserRole` (`onlyRole(ADMIN_ROLE)`). -/
def AWAC.grantPauserRole (s : AWACState) (caller target : Nat) :
    Except Err (AWACState × List Eff) :=
  if s.roles AWACRole.admin caller then
    .ok (AWAC.grantRoleImpl s AWACRole.pauser target, [])
  else .error .Unauthorized

/-- `revokePauserRole` (`onlyRole(ADMIN_ROLE)`). -/
def AWAC.revokePauserRole (s : AWACState) (caller target : Nat) :
    Except Err (AWACState × List Eff) :=
  if s.roles AWACRole.admin caller then
    .ok (AWAC.revokeRoleImpl s AWACRole.pauser target, [])
  else .error .Unauthorized

/-- `grantClaimManagerRole` (`onlyRole(ADMIN_ROLE)`). -/
def AWAC.grantClaimManagerRole (s : AWACState) (caller target : Nat) :
    Except Err (AWACState × List Eff) :=
  if s.roles AWACRole.admin caller then
    .ok (AWAC.grantRoleImpl s AWACRole.claimManager target, [])
  else .error .Unauthorized

/-- `revokeClaimManagerRole` (`onlyRole(ADMIN_ROLE)`). -/
def AWAC.revokeClaimManagerRole (s : AWACState) (caller target : Nat) :
    Except Err (AWACState × List Eff) :=
  if s.roles AWACRole.admin caller then
    .ok (AWAC.revokeRoleImpl s AWACRole.claimManager target, [])
  else .error .Unauthorized

/-- The external entry points of `AirdropWithAccessControl`, each tagged
with its caller. -/
inductive AWACOp : Type where
  | claim : Nat → Nat → List B32 → AWACOp
  | pause : Nat → AWACOp
  | unpause : Nat → AWACOp
  | setMaxClaimAmount : Nat → Nat → AWACOp
  | emergencyWithdraw : Nat → Nat → AWACOp
  | grantAdminRole : Nat → Nat → AWACOp
  | revokeAdminRole : Nat → Nat → AWACOp
  | grantPauserRole : Nat → Nat → AWACOp
  | revokePauserRole : Nat → Nat → AWACOp
  | grantClaimManagerRole : Nat → Nat → AWACOp
  | revokeClaimManagerRole : Nat → Nat → AWACOp

/-- Dispatch an `AirdropWithAccessControl` call. -/
def AWAC.exec (env : ChainEnv) (op : AWACOp) (s : AWACState) :
    Except Err (AWACState × List Eff) :=
  match op with
  | .claim caller amount proof => AWAC.claim env.mintOk s caller amount proof
  | .pause caller => AWAC.pause s caller
  | .unpause caller => AWAC.unpause s caller
  | .setMaxClaimAmount caller v => AWAC.setMaxClaimAmount s caller v
  | .emergencyWithdraw caller amount => AWAC.emergencyWithdraw env s caller amount
  | .grantAdminRole caller target => AWAC.grantAdminRole s caller target
  | .revokeAdminRole caller target => AWAC.revokeAdminRole s caller target
  | .grantPauserRole caller target => AWAC.grantPauserRole s caller target
  | .revokePauserRole caller target => AWAC.revokePauserRole s caller target
  | .grantClaimManagerRole caller target => AWAC.grantClaimManagerRole s caller target
  | .revokeClaimManagerRole caller target => AWAC.revokeClaimManagerRole s caller target

/-- Post-state of a transaction: a revert leaves the previous state. -/
def AWAC.run (env : ChainEnv) (op : AWACOp) (s : AWACState) : AWACState :=
  match AWAC.exec env op s with
  | .ok (s2, _) => s2
  | .error _ => s

/-- Post-state of an `AWAC.claim` transaction. -/
def AWAC.runClaim (mintOk : Nat → Nat → Bool) (s : AWACState) (caller amount : Nat)
    (proof : List B32) : AWACState :=
  match AWAC.claim mintOk s caller amount proof with
  | .ok (s2, _) => s2
  | .error _ => s

/-- `DEFAULT_ADMIN_ROLE` of the OpenZeppelin access-control modules
(`bytes32(0)`), modelled as role identifier `0`. -/
def DEFAULT_ADMIN_ROLE : Nat := 0

/-- Storage of the upgradeable `Airdrop` contract. -/
structure AirdropState where
  tokenAddr : Nat
  merkleRoot : B32
  hasClaimed : Nat → Bool
  roles : Nat → Nat → Bool

/-- State after `Airdrop`'s initializer: nothing claimed, the given root,
`DEFAULT_ADMIN_ROLE` granted to the given admin. -/
def Airdrop.deployInit (tokenAddr : Nat) (root : B32) (admin : Nat) : AirdropState where
  tokenAddr := tokenAddr
  merkleRoot := root
  hasClaimed := fun _ => false
  roles := fun r a => r == DEFAULT_ADMIN_ROLE && a == admin

/-- `Airdrop.claim`: no pause flag and no maximum-amount bound in this
variant; the whole transaction reverts when the external `mint` reverts. -/
def Airdrop.claim (mintOk : Nat → Nat → Bool) (s : AirdropState) (caller amount : Nat)
    (proof : List B32) : Except Err (AirdropState × List Eff) :=
  if s.hasClaimed caller then .error .AlreadyClaimed
  else if amount = 0 then .error .ZeroAmount
  else if !verify proof s.merkleRoot (B32.leafAA caller amount) then .error .InvalidProof
  else if !mintOk caller amount then .error .MintRevert
  else .ok ({ s with hasClaimed := fun a => if a = caller then true else s.hasClaimed a },
            [Eff.mintCall caller amount, Eff.airdropClaimedEvt caller amount])

/-- `Airdrop.setMerkleRoot` (`onlyRole(DEFAULT_ADMIN_ROLE)`): replaces the
root and emits `MerkleRootUpdated`; it does not touch `hasClaimed`. -/
def Airdrop.setMerkleRoot (s : AirdropState) (caller : Nat) (newRoot : B32) :
    Except Err (AirdropState × List Eff) :=
  if s.roles DEFAULT_ADMIN_ROLE caller then
    .ok ({ s with merkleRoot := newRoot }, [Eff.merkleRootUpdatedEvt newRoot])
  else .error .Unauthorized

/-- Inherited `AccessControlUpgradeable.grantRole`; with no `_setRoleAdmin`
call in the contract, the admin of every role is `DEFAULT_ADMIN_ROLE`. -/
def Airdrop.grantRole (s : AirdropState) (caller roleId target : Nat) :
    Except Err (AirdropState × List Eff) :=
  if s.roles DEFAULT_ADMIN_ROLE caller then
    .ok ({ s with roles := fun r a => if r = roleId ∧ a = target then true else s.roles r a }, [])
  else .error .Unauthorized

/-- Inherited `AccessControlUpgradeable.revokeRole`. -/
def Airdrop.revokeRole (s : AirdropState) (caller roleId target : Nat) :
    Except Err (AirdropState × List Eff) :=
  if s.roles DEFAULT_ADMIN_ROLE caller then
    .ok ({ s with roles := fun r a => if r = roleId ∧ a = target then false else s.roles r a }, [])
  else .error .Unauthorized

/-- The external entry points of the upgradeable `Airdrop`. -/
inductive AirdropOp : Type where
  | claim : Nat → Nat → List B32 → AirdropOp
  | setMerkleRoot : Nat → B32 → AirdropOp
  | grantRole : Nat → Nat → Nat → AirdropOp
  | revokeRole : Nat → Nat → Nat → AirdropOp

/-- Dispatch an `Airdrop` call. -/
def Airdrop.exec (env : ChainEnv) (op : AirdropOp) (s : AirdropState) :
    Except Err (AirdropState × List Eff) :=
  match op with
  | .claim caller amount proof => Airdrop.claim env.mintOk s caller amount proof
  | .setMerkleRoot caller newRoot => Airdrop.setMerkleRoot s caller newRoot
  | .grantRole caller roleId target => Airdrop.grantRole s caller roleId target
  | .revokeRole caller roleId target => Airdrop.revokeRole s caller roleId target

/-- Post-state of an `Airdrop` transaction: a revert leaves the previous
state. -/
def Airdrop.run (env : ChainEnv) (op : AirdropOp) (s : AirdropState) : AirdropState :=
  match Airdrop.exec env op s with
  | .ok (s2, _) => s2
  | .error _ => s

/-- Post-state of an `Airdrop.claim` transaction. -/
def Airdrop.runClaim (mintOk : Nat → Nat → Bool) (s : AirdropState) (caller amount : Nat)
    (proof : List B32) : AirdropState :=
  match Airdrop.claim mintOk s caller amount proof with
  | .ok (s2, _) => s2
  | .error _ => s

/-- Storage of `MerkleDistributor`: the claimed set is a bitmap,
word-indexed exactly as in the contract. -/
structure MDState where
  tokenAddr : Nat
  merkleRoot : B32
  claimedBitMap : Nat → Nat

/-- `MerkleDistributor.isClaimed`. -/
def MD.isClaimed (s : MDState) (index : Nat) : Bool :=
  let claimedWord := s.claimedBitMap (index / 256)
  let mask := 1 <<< (index % 256)
  claimedWord &&& mask == mask

/-- `MerkleDistributor._setClaimed`. -/
def MD.setClaimed (s : MDState) (index : Nat) : MDState :=
  { s with claimedBitMap := fun w =>
      if w = index / 256 then s.claimedBitMap (index / 256) ||| (1 <<< (index % 256))
      else s.claimedBitMap w }

/-- `MerkleDistributor.claim(index, account, amount, proof)`.  `sender` is
the transaction sender, which the body never reads; tokens go to `account`
by `token.transfer`, whose returned Bool is `require`d. -/
def MD.claim (transferOk : Nat → Nat → Bool) (sender : Nat) (s : MDState)
    (index account amount : Nat) (proof : List B32) : Except Err (MDState × List Eff) :=
  if MD.isClaimed s index then .error .MDAlreadyClaimed
  else if !verify proof s.merkleRoot (B32.leafIAA index account amount) then .error .MDInvalidProof
  else if !transferOk account amount then .error .TransferFailed
  else .ok (MD.setClaimed s index,
            [Eff.transferCall account amount, Eff.mdClaimedEvt index account amount])

/-- Post-state of a `MerkleDistributor.claim` transaction. -/
def MD.runClaim (transferOk : Nat → Nat → Bool) (sender : Nat) (s : MDState)
    (index account amount : Nat) (proof : List B32) : MDState :=
  match MD.claim transferOk sender s index account amount proof with
  | .ok (s2, _) => s2
  | .error _ => s

/-- Leaves of the address/amount tree, as the tests and the AWAC/Airdrop
claim paths hash them. -/
def entLeaves (es : List (Nat × Nat)) : List B32 :=
  es.map fun e => B32.leafAA e.1 e.2

/-- Leaves of the indexed tree: entitlement number `k + j` for the `j`-th
entry, as `scripts/generateMerkle.ts` enumerates recipients. -/
def mdLeavesAux (k : Nat) : List (Nat × Nat) → List B32
  | [] => []
  | e :: rest => B32.leafIAA k e.1 e.2 :: mdLeavesAux (k + 1) rest

/-- Leaves of the indexed tree starting at index `0`. -/
def mdLeaves (es : List (Nat × Nat)) : List B32 := mdLeavesAux 0 es

/-- `true` on a successful (non-reverting) call result. -/
def callOk {σ : Type} (r : Except Err (σ × List Eff)) : Bool :=
  match r with
  | .ok _ => true
  | .error _ => false

/-- The five `claim` validation failures of `AirdropWithAccessControl`
(steps 1–6 of the specification); `MintRevert` and `MathOverflow` arise
after validation, in the execution phase. -/
def isValidationErr : Err → Bool
  | .AirdropPaused => true
  | .AlreadyClaimed => true
  | .ZeroAmount => true
  | .ExceedsMaxClaimAmount => true
  | .InvalidProof => true
  | _ => false

/-- `true` when a call result fails with a validation error. -/
def failsValidation {σ : Type} (r : Except Err (σ × List Eff)) : Bool :=
  match r with
  | .ok _ => false
  | .error e => isValidationErr e

/-- A benign environment: all external token calls succeed. -/
def envAll : ChainEnv where
  mintOk := fun _ _ => true
  transferOk := fun _ _ => true
  selfBalance := 1000

/-- The word code is injective: under the free-algebra model of keccak256,
distinct hash applications yield distinct words. -/
theorem B32.encode_inj : ∀ x y : B32, x.encode = y.encode → x = y := by
  intro x
  induction x with
  | U n =>
    intro y h
    cases y with
    | U m => simp only [B32.encode] at h; have hnm : n = m := by omega
             rw [hnm]
    | leafAA a m => simp only [B32.encode] at h; omega
    | leafIAA i a m => simp only [B32.encode] at h; omega
    | pairHash y1 y2 => simp only [B32.encode] at h; omega
  | leafAA a m =>
    intro y h
    cases y with
    | U n => simp only [B32.encode] at h; omega
    | leafAA c d =>
      simp only [B32.encode] at h
      have hp : Nat.pair a m = Nat.pair c d := by omega
      obtain ⟨h1, h2⟩ := Nat.pair_eq_pair.mp hp
      rw [h1, h2]
    | leafIAA i c d => simp only [B32.encode] at h; omega
    | pairHash y1 y2 => simp only [B32.encode] at h; omega
  | leafIAA i a m =>
    intro y h
    cases y with
    | U n => simp only [B32.encode] at h; omega
    | leafAA c d => simp only [B32.encode] at h; omega
    | leafIAA j c d =>
      simp only [B32.encode] at h
      have hp : Nat.pair i (Nat.pair a m) = Nat.pair j (Nat.pair c d) := by omega
      obtain ⟨h1, h2⟩ := Nat.pair_eq_pair.mp hp
      obtain ⟨h3, h4⟩ := Nat.pair_eq_pair.mp h2
      rw [h1, h3, h4]
    | pairHash y1 y2 => simp only [B32.encode] at h; omega
  | pairHash x1 x2 ih1 ih2 =>
    intro y h
    cases y with
    | U n => simp only [B32.encode] at h; omega
    | leafAA c d => simp only [B32.encode] at h; omega
    | leafIAA j c d => simp only [B32.encode] at h; omega
    | pairHash y1 y2 =>
      simp only [B32.encode] at h
      have hp : Nat.pair x1.encode x2.encode = Nat.pair y1.encode y2.encode := by omega
      obtain ⟨h1, h2⟩ := Nat.pair_eq_pair.mp hp
      rw [ih1 y1 h1, ih2 y2 h2]

/-- The OpenZeppelin sorted pairing is commutative. -/
theorem ozHashPair_comm (a b : B32) : ozHashPair a b = ozHashPair b a := by
  unfold ozHashPair B32.bLt
  rcases Nat.lt_trichotomy a.encode b.encode with h | h | h
  · rw [if_pos (by simpa [Nat.blt_eq] using h), if_neg (by simp [Nat.blt_eq]; omega)]
  · have hab : a = b := B32.encode_inj a b h
    rw [hab]
  · rw [if_neg (by simp [Nat.blt_eq]; omega), if_pos (by simpa [Nat.blt_eq] using h)]

/-- The on-chain pairing rule coincides, word for word, with the pairing
rule of the off-chain merkletreejs builder under `sortPairs: true`. -/
theorem ozHashPair_eq_mtjsPairHash (a b : B32) : ozHashPair a b = mtjsPairHash a b := by
  unfold ozHashPair mtjsPairHash B32.bLt B32.bLe
  rcases Nat.lt_trichotomy a.encode b.encode with h | h | h
  · rw [if_pos (by simpa [Nat.blt_eq] using h), if_pos (by simp [Nat.ble_eq]; omega)]
  · have hab : a = b := B32.encode_inj a b h
    subst hab
    simp
  · rw [if_neg (by simp [Nat.blt_eq]; omega), if_neg (by simp [Nat.ble_eq]; omega)]

theorem buildLayer_nil : buildLayer [] = [] := rfl

theorem buildLayer_single (a : B32) : buildLayer [a] = [a] := rfl

theorem buildLayer_cons2 (a b : B32) (rest : List B32) :
    buildLayer (a :: b :: rest) = mtjsPairHash a b :: buildLayer rest := rfl

theorem buildRootAux_single (n : Nat) (a : B32) : buildRootAux n [a] = a := by
  cases n <;> rfl

theorem buildRootAux_cons2 (n : Nat) (a b : B32) (rest : List B32) :
    buildRootAux (n + 1) (a :: b :: rest) = buildRootAux n (buildLayer (a :: b :: rest)) := rfl

theorem getProofAux_single (n : Nat) (a : B32) (idx : Nat) : getProofAux n [a] idx = [] := by
  cases n <;> rfl

theorem getProofAux_cons2 (n : Nat) (a b : B32) (rest : List B32) (idx : Nat) :
    getProofAux (n + 1) (a :: b :: rest) idx =
      sibList (if idx % 2 = 0 then (a :: b :: rest)[idx + 1]? else (a :: b :: rest)[idx - 1]?) ++
        getProofAux n (buildLayer (a :: b :: rest)) (idx / 2) := rfl

theorem processProof_cons (x y : B32) (rest : List B32) :
    processProof x (y :: rest) = processProof (ozHashPair x y) rest := rfl

/-- A `buildLayer` step halves the layer, rounding up. -/
theorem buildLayer_length : ∀ l : List B32, (buildLayer l).length = (l.length + 1) / 2
  | [] => by simp [buildLayer_nil]
  | [a] => by simp [buildLayer_single]
  | a :: b :: rest => by
    rw [buildLayer_cons2]
    simp only [List.length_cons]
    rw [buildLayer_length rest]
    omega

/-- The parent of two present siblings is their sorted-pair hash. -/
theorem buildLayer_get_pair : ∀ (l : List B32) (j : Nat) (x y : B32),
    l[2 * j]? = some x → l[2 * j + 1]? = some y →
    (buildLayer l)[j]? = some (mtjsPairHash x y)
  | [], j, x, y => by intro h1 _; simp at h1
  | [a], j, x, y => by
    intro _ h2
    have hb : 2 * j + 1 < 1 := by simpa using (List.getElem?_eq_some_iff.mp h2).1
    omega
  | a :: b :: rest, 0, x, y => by
    intro h1 h2
    simp at h1 h2
    rw [buildLayer_cons2]
    simp [h1, h2]
  | a :: b :: rest, j + 1, x, y => by
    intro h1 h2
    have e1 : 2 * (j + 1) = 2 * j + 1 + 1 := by ring
    have e2 : 2 * (j + 1) + 1 = 2 * j + 1 + 1 + 1 := by ring
    rw [e1] at h1
    rw [e2] at h2
    simp only [List.getElem?_cons_succ] at h1 h2
    rw [buildLayer_cons2]
    simp only [List.getElem?_cons_succ]
    exact buildLayer_get_pair rest j x y h1 h2

/-- A promoted odd last node passes to the next layer unchanged. -/
theorem buildLayer_get_last : ∀ (l : List B32) (j : Nat) (x : B32),
    l.length = 2 * j + 1 → l[2 * j]? = some x → (buildLayer l)[j]? = some x
  | [], j, x => by intro hl _; simp at hl
  | [a], j, x => by
    intro hl h1
    have hj : j = 0 := by simp at hl; omega
    subst hj
    simp at h1
    rw [buildLayer_single]
    simp [h1]
  | a :: b :: rest, 0, x => by
    intro hl _
    simp at hl
  | a :: b :: rest, j + 1, x => by
    intro hl h1
    have e1 : 2 * (j + 1) = 2 * j + 1 + 1 := by ring
    rw [e1] at h1
    simp only [List.getElem?_cons_succ] at h1
    have hl2 : rest.length = 2 * j + 1 := by simp at hl; omega
    rw [buildLayer_cons2]
    simp only [List.getElem?_cons_succ]
    exact buildLayer_get_last rest j x hl2 h1

/-- Completeness of the commitment scheme, fuel-indexed: folding the
generated proof from the leaf at any position recomputes exactly the root
of the merkletreejs tree, odd promoted nodes included. -/
theorem processProof_getProofAux :
    ∀ (n : Nat) (l : List B32) (idx : Nat) (x : B32), l.length ≤ n →
      l[idx]? = some x →
      processProof x (getProofAux n l idx) = buildRootAux n l
  | 0, l, idx, x => by
    intro hn hidx
    have hl : l = [] := List.length_eq_zero.mp (Nat.le_zero.mp hn)
    subst hl
    simp at hidx
  | n + 1, [], idx, x => by
    intro _ hidx
    simp at hidx
  | n + 1, [a], idx, x => by
    intro _ hidx
    have hb : idx < 1 := by simpa using (List.getElem?_eq_some_iff.mp hidx).1
    have hidx0 : idx = 0 := by omega
    subst hidx0
    simp at hidx
    subst hidx
    rw [getProofAux_single, buildRootAux_single]
    rfl
  | n + 1, a :: b :: rest, idx, x => by
    intro hn hidx
    have hltn : idx < (a :: b :: rest).length := (List.getElem?_eq_some_iff.mp hidx).1
    have hbl : (buildLayer (a :: b :: rest)).length ≤ n := by
      rw [buildLayer_length]
      simp only [List.length_cons] at hn hltn ⊢
      omega
    rw [getProofAux_cons2, buildRootAux_cons2]
    by_cases hpar : idx % 2 = 0
    · rw [if_pos hpar]
      cases hsib : (a :: b :: rest)[idx + 1]? with
      | some y =>
        have hpair : (buildLayer (a :: b :: rest))[idx / 2]? = some (mtjsPairHash x y) := by
          apply buildLayer_get_pair
          · rw [show 2 * (idx / 2) = idx by omega]
            exact hidx
          · rw [show 2 * (idx / 2) + 1 = idx + 1 by omega]
            exact hsib
        show processProof x (y :: getProofAux n (buildLayer (a :: b :: rest)) (idx / 2)) =
          buildRootAux n (buildLayer (a :: b :: rest))
        rw [processProof_cons, ozHashPair_eq_mtjsPairHash]
        exact processProof_getProofAux n (buildLayer (a :: b :: rest)) (idx / 2)
          (mtjsPairHash x y) hbl hpair
      | none =>
        have hge : (a :: b :: rest).length ≤ idx + 1 := List.getElem?_eq_none_iff.mp hsib
        have hlast : (a :: b :: rest).length = 2 * (idx / 2) + 1 := by omega
        have hplast : (buildLayer (a :: b :: rest))[idx / 2]? = some x := by
          apply buildLayer_get_last (a :: b :: rest) (idx / 2) x hlast
          rw [show 2 * (idx / 2) = idx by omega]
          exact hidx
        show processProof x (getProofAux n (buildLayer (a :: b :: rest)) (idx / 2)) =
          buildRootAux n (buildLayer (a :: b :: rest))
        exact processProof_getProofAux n (buildLayer (a :: b :: rest)) (idx / 2) x hbl hplast
    · rw [if_neg hpar]
      have hodd : idx % 2 = 1 := by omega
      cases hsib : (a :: b :: rest)[idx - 1]? with
      | none =>
        exfalso
        have hge := List.getElem?_eq_none_iff.mp hsib
        omega
      | some y =>
        have hpair : (buildLayer (a :: b :: rest))[idx / 2]? = some (mtjsPairHash y x) := by
          apply buildLayer_get_pair
          · rw [show 2 * (idx / 2) = idx - 1 by omega]
            exact hsib
          · rw [show 2 * (idx / 2) + 1 = idx by omega]
            exact hidx
        show processProof x (y :: getProofAux n (buildLayer (a :: b :: rest)) (idx / 2)) =
          buildRootAux n (buildLayer (a :: b :: rest))
        rw [processProof_cons, ozHashPair_comm, ozHashPair_eq_mtjsPairHash]
        exact processProof_getProofAux n (buildLayer (a :: b :: rest)) (idx / 2)
          (mtjsPairHash y x) hbl hpair

/-- Generated proofs verify: for any leaf position of any leaf list, the
merkletreejs proof passes OpenZeppelin `MerkleProof.verify` against the
merkletreejs root. -/
theorem verify_getProof (l : List B32) (idx : Nat) (x : B32) (h : l[idx]? = some x) :
    verify (getProof l idx) (buildRoot l) x = true := by
  unfold verify getProof buildRoot
  rw [processProof_getProofAux l.length l idx x (Nat.le_refl _) h]
  exact beq_self_eq_true _

/-- Generated proofs verify, value-lookup form: `getHexProof(leaf)` for any
leaf present in the list passes verification against the root. -/
theorem verify_getProofForLeaf (l : List B32) (v : B32) (h : v ∈ l) :
    verify (getProofForLeaf l v) (buildRoot l) v = true := by
  unfold getProofForLeaf
  apply verify_getProof
  have hlt : List.indexOf v l < l.length := List.indexOf_lt_length.mpr h
  rw [List.getElem?_eq_some_iff]
  exact ⟨hlt, List.getElem_indexOf hlt⟩

/-- Indexing into the indexed-leaf list. -/
theorem mdLeavesAux_getElem : ∀ (es : List (Nat × Nat)) (k j a m : Nat),
    es[j]? = some (a, m) → (mdLeavesAux k es)[j]? = some (B32.leafIAA (k + j) a m)
  | [], k, j, a, m => by intro h; simp at h
  | e :: rest, k, 0, a, m => by
    intro h
    simp at h
    subst h
    unfold mdLeavesAux
    simp
  | e :: rest, k, j + 1, a, m => by
    intro h
    simp only [List.getElem?_cons_succ] at h
    unfold mdLeavesAux
    simp only [List.getElem?_cons_succ]
    rw [show k + (j + 1) = k + 1 + j by omega]
    exact mdLeavesAux_getElem rest (k + 1) j a m h

/-- A successful `AWAC.claim` produces exactly the expected storage update. -/
theorem AWAC.claimOkState (mintOk : Nat → Nat → Bool) (s : AWACState)
    (caller amount : Nat) (proof : List B32) (s2 : AWACState) (fx : List Eff)
    (h : AWAC.claim mintOk s caller amount proof = .ok (s2, fx)) :
    s2 = { s with isClaimed := fun a => if a = caller then true else s.isClaimed a,
                  totalClaimed := s.totalClaimed + amount } ∧
    fx = [Eff.mintCall caller amount, Eff.claimedEvt caller amount] := by
  unfold AWAC.claim at h
  split at h
  · cases h
  · split at h
    · cases h
    · split at h
      · cases h
      · split at h
        · cases h
        · split at h
          · cases h
          · split at h
            · cases h
            · split at h
              · cases h
              · cases h
                exact ⟨rfl, rfl⟩

/-- When every guard passes and the mint succeeds, `AWAC.claim` returns the
expected updated state and effects. -/
theorem AWAC.claimOkOf (mintOk : Nat → Nat → Bool) (s : AWACState)
    (caller amount : Nat) (proof : List B32)
    (hp : s.isPaused = false) (hc : s.isClaimed caller = false) (hz : amount ≠ 0)
    (hmax : ¬ s.maxClaimAmount < amount)
    (hv : verify proof s.merkleRoot (B32.leafAA caller amount) = true)
    (hof : ¬ UINT256_MOD ≤ s.totalClaimed + amount)
    (hm : mintOk caller amount = true) :
    AWAC.claim mintOk s caller amount proof =
      .ok ({ s with isClaimed := fun a => if a = caller then true else s.isClaimed a,
                    totalClaimed := s.totalClaimed + amount },
           [Eff.mintCall caller amount, Eff.claimedEvt caller amount]) := by
  unfold AWAC.claim
  simp [hp, hc, hz, hmax, hv, hof, hm]

/-- A paused `AWAC.claim` reverts with `AirdropPaused`. -/
theorem AWAC.claim_paused_of (mintOk : Nat → Nat → Bool) (s : AWACState)
    (caller amount : Nat) (proof : List B32) (hp : s.isPaused = true) :
    AWAC.claim mintOk s caller amount proof = .error Err.AirdropPaused := by
  unfold AWAC.claim
  simp [hp]

/-- An unpaused `AWAC.claim` by an address already recorded as claimed
reverts with `AlreadyClaimed`. -/
theorem AWAC.claimAlreadyOf (mintOk : Nat → Nat → Bool) (s : AWACState)
    (caller amount : Nat) (proof : List B32)
    (hp : s.isPaused = false) (hc : s.isClaimed caller = true) :
    AWAC.claim mintOk s caller amount proof = .error Err.AlreadyClaimed := by
  unfold AWAC.claim
  simp [hp, hc]

/-- The pre-check and the claim guards agree branch by branch: `canClaim`
is `true` exactly when `claim` does not revert with one of the five
validation errors. -/
theorem AWAC.canClaim_eq_not_failsValidation (mintOk : Nat → Nat → Bool)
    (s : AWACState) (account amount : Nat) (proof : List B32) :
    AWAC.canClaim s account amount proof =
      !failsValidation (AWAC.claim mintOk s account amount proof) := by
  unfold AWAC.canClaim AWAC.claim
  cases hp : s.isPaused with
  | true => simp [failsValidation, isValidationErr]
  | false =>
    cases hc : s.isClaimed account with
    | true => simp [failsValidation, isValidationErr]
    | false =>
      by_cases hz : amount = 0
      · simp [hz, failsValidation, isValidationErr]
      · by_cases hmax : s.maxClaimAmount < amount
        · simp [hz, hmax, failsValidation, isValidationErr]
        · cases hv : verify proof s.merkleRoot (B32.leafAA account amount) with
          | false => simp [hz, hmax, hv, failsValidation, isValidationErr]
          | true =>
            by_cases hof : UINT256_MOD ≤ s.totalClaimed + amount
            · simp [hz, hmax, hv, hof, failsValidation, isValidationErr]
            · cases hm : mintOk account amount with
              | false => simp [hz, hmax, hv, hof, hm, failsValidation, isValidationErr]
              | true => simp [hz, hmax, hv, hof, hm, failsValidation, isValidationErr]

/-- A successful `Airdrop.claim` produces exactly the expected storage
update. -/
theorem Airdrop.claimUpOkState (mintOk : Nat → Nat → Bool) (s : AirdropState)
    (caller amount : Nat) (proof : List B32) (s2 : AirdropState) (fx : List Eff)
    (h : Airdrop.claim mintOk s caller amount proof = .ok (s2, fx)) :
    s2 = { s with hasClaimed := fun a => if a = caller then true else s.hasClaimed a } ∧
    fx = [Eff.mintCall caller amount, Eff.airdropClaimedEvt caller amount] := by
  unfold Airdrop.claim at h
  split at h
  · cases h
  · split at h
    · cases h
    · split at h
      · cases h
      · split at h
        · cases h
        · cases h
          exact ⟨rfl, rfl⟩

/-- When every guard passes and the mint succeeds, `Airdrop.claim` returns
the expected updated state and effects. -/
theorem Airdrop.claimUpOkOf (mintOk : Nat → Nat → Bool) (s : AirdropState)
    (caller amount : Nat) (proof : List B32)
    (hc : s.hasClaimed caller = false) (hz : amount ≠ 0)
    (hv : verify proof s.merkleRoot (B32.leafAA caller amount) = true)
    (hm : mintOk caller amount = true) :
    Airdrop.claim mintOk s caller amount proof =
      .ok ({ s with hasClaimed := fun a => if a = caller then true else s.hasClaimed a },
           [Eff.mintCall caller amount, Eff.airdropClaimedEvt caller amount]) := by
  unfold Airdrop.claim
  simp [hc, hz, hv, hm]

/-- An `Airdrop.claim` by an address already recorded as claimed reverts
with `AlreadyClaimed`, whatever the current root, amount and proof. -/
theorem Airdrop.claimUpAlreadyOf (mintOk : Nat → Nat → Bool) (s : AirdropState)
    (caller amount : Nat) (proof : List B32) (hc : s.hasClaimed caller = true) :
    Airdrop.claim mintOk s caller amount proof = .error Err.AlreadyClaimed := by
  unfold Airdrop.claim
  simp [hc]

/-- A successful `MD.claim` produces exactly the expected storage update. -/
theorem MD.claimIdxOkState (tOk : Nat → Nat → Bool) (sender : Nat) (s : MDState)
    (index account amount : Nat) (proof : List B32) (s2 : MDState) (fx : List Eff)
    (h : MD.claim tOk sender s index account amount proof = .ok (s2, fx)) :
    s2 = MD.setClaimed s index ∧
    fx = [Eff.transferCall account amount, Eff.mdClaimedEvt index account amount] := by
  unfold MD.claim at h
  split at h
  · cases h
  · split at h
    · cases h
    · split at h
      · cases h
      · cases h
        exact ⟨rfl, rfl⟩

/-- When the index is unclaimed, the proof verifies and the transfer
succeeds, `MD.claim` succeeds with the expected update and effects. -/
theorem MD.claimIdxOkOf (tOk : Nat → Nat → Bool) (sender : Nat) (s : MDState)
    (index account amount : Nat) (proof : List B32)
    (hc : MD.isClaimed s index = false)
    (hv : verify proof s.merkleRoot (B32.leafIAA index account amount) = true)
    (ht : tOk account amount = true) :
    MD.claim tOk sender s index account amount proof =
      .ok (MD.setClaimed s index,
           [Eff.transferCall account amount, Eff.mdClaimedEvt index account amount]) := by
  unfold MD.claim
  simp [hc, hv, ht]

/-- An `MD.claim` for an index already recorded as claimed reverts. -/
theorem MD.claimIdxAlreadyOf (tOk : Nat → Nat → Bool) (sender : Nat) (s : MDState)
    (index account amount : Nat) (proof : List B32)
    (hc : MD.isClaimed s index = true) :
    MD.claim tOk sender s index account amount proof = .error Err.MDAlreadyClaimed := by
  unfold MD.claim
  simp [hc]

/-- Masking with a single-bit mask tests that bit. -/
theorem and_pow_eq_testBit (w b : Nat) : (w &&& 2 ^ b == 2 ^ b) = w.testBit b := by
  rw [Nat.and_two_pow]
  cases hb : w.testBit b with
  | false =>
    simp only [Bool.toNat_false, Nat.zero_mul]
    rw [beq_eq_false_iff_ne]
    exact Nat.ne_of_lt (Nat.two_pow_pos b)
  | true =>
    simp only [Bool.toNat_true, Nat.one_mul]
    exact beq_self_eq_true _

/-- `MD.isClaimed` reads one bit of the bitmap. -/
theorem MD.isClaimed_testBit (s : MDState) (i : Nat) :
    MD.isClaimed s i = (s.claimedBitMap (i / 256)).testBit (i % 256) := by
  unfold MD.isClaimed
  rw [Nat.one_shiftLeft, and_pow_eq_testBit]

/-- `_setClaimed` sets the bit of its own index. -/
theorem MD.isClaimed_setClaimed_self (s : MDState) (index : Nat) :
    MD.isClaimed (MD.setClaimed s index) index = true := by
  rw [MD.isClaimed_testBit]
  unfold MD.setClaimed
  simp [Nat.one_shiftLeft, Nat.testBit_or, Nat.testBit_two_pow_self]

/-- `_setClaimed` never clears a bit: every index recorded as claimed stays
claimed. -/
theorem MD.isClaimed_setClaimed_mono (s : MDState) (index i2 : Nat)
    (h : MD.isClaimed s i2 = true) :
    MD.isClaimed (MD.setClaimed s index) i2 = true := by
  rw [MD.isClaimed_testBit] at h ⊢
  unfold MD.setClaimed
  simp only []
  by_cases hw : i2 / 256 = index / 256
  · rw [hw] at h
    simp only [hw, eq_self_iff_true, if_true, Nat.one_shiftLeft, Nat.testBit_or, h,
      Bool.true_or]
  · simp only [if_neg hw]
    exact h

/-- No `AirdropWithAccessControl` entry point ever clears a recorded
claim: `isClaimed` is monotone under every operation. -/
theorem AWAC.run_preserves_isClaimed (env : ChainEnv) (op : AWACOp) (s : AWACState)
    (a : Nat) (h : s.isClaimed a = true) : (AWAC.run env op s).isClaimed a = true := by
  cases op with
  | claim caller amount proof =>
    unfold AWAC.run AWAC.exec
    cases hres : AWAC.claim env.mintOk s caller amount proof with
    | error e =>
      simp only [hres]
      exact h
    | ok r =>
      obtain ⟨s2, fx⟩ := r
      obtain ⟨hs2, -⟩ := AWAC.claimOkState env.mintOk s caller amount proof s2 fx hres
      subst hs2
      simp only [hres]
      by_cases hac : a = caller <;> simp [hac, h]
  | pause c =>
    unfold AWAC.run AWAC.exec AWAC.pause
    cases hr : s.roles AWACRole.pauser c <;> simp [hr, h]
  | unpause c =>
    unfold AWAC.run AWAC.exec AWAC.unpause
    cases hr : s.roles AWACRole.pauser c <;> simp [hr, h]
  | setMaxClaimAmount c v =>
    unfold AWAC.run AWAC.exec AWAC.setMaxClaimAmount
    cases hr : s.roles AWACRole.admin c <;> simp [hr, h]
  | emergencyWithdraw c amt =>
    unfold AWAC.run AWAC.exec AWAC.emergencyWithdraw
    cases hr : s.roles AWACRole.admin c with
    | false => simp [hr, h]
    | true =>
      by_cases h0 : 0 < (if env.selfBalance < amt then env.selfBalance else amt)
      · cases ht : env.transferOk c (if env.selfBalance < amt then env.selfBalance else amt) with
        | false => simp [hr, h0, ht, h]
        | true => simp [hr, h0, ht, h]
      · simp [hr, h0, h]
  | grantAdminRole c t =>
    unfold AWAC.run AWAC.exec AWAC.grantAdminRole AWAC.grantRoleImpl
    cases hr : s.roles AWACRole.defaultAdmin c <;> simp [hr, h]
  | revokeAdminRole c t =>
    unfold AWAC.run AWAC.exec AWAC.revokeAdminRole AWAC.revokeRoleImpl
    cases hr : s.roles AWACRole.defaultAdmin c <;> simp [hr, h]
  | grantPauserRole c t =>
    unfold AWAC.run AWAC.exec AWAC.grantPauserRole AWAC.grantRoleImpl
    cases hr : s.roles AWACRole.admin c <;> simp [hr, h]
  | revokePauserRole c t =>
    unfold AWAC.run AWAC.exec AWAC.revokePauserRole AWAC.revokeRoleImpl
    cases hr : s.roles AWACRole.admin c <;> simp [hr, h]
  | grantClaimManagerRole c t =>
    unfold AWAC.run AWAC.exec AWAC.grantClaimManagerRole AWAC.grantRoleImpl
    cases hr : s.roles AWACRole.admin c <;> simp [hr, h]
  | revokeClaimManagerRole c t =>
    unfold AWAC.run AWAC.exec AWAC.revokeClaimManagerRole AWAC.revokeRoleImpl
    cases hr : s.roles AWACRole.admin c <;> simp [hr, h]

/-- Only `pause`/`unpause`, called by a holder of the pauser role, can
change the pause flag. -/
theorem AWAC.run_isPaused_change (env : ChainEnv) (op : AWACOp) (s : AWACState)
    (hne : (AWAC.run env op s).isPaused ≠ s.isPaused) :
    ∃ c, (op = AWACOp.pause c ∨ op = AWACOp.unpause c) ∧
      s.roles AWACRole.pauser c = true := by
  cases op with
  | claim caller amount proof =>
    exfalso
    apply hne
    unfold AWAC.run AWAC.exec
    cases hres : AWAC.claim env.mintOk s caller amount proof with
    | error e => simp only [hres]
    | ok r =>
      obtain ⟨s2, fx⟩ := r
      obtain ⟨hs2, -⟩ := AWAC.claimOkState env.mintOk s caller amount proof s2 fx hres
      subst hs2
      simp only [hres]
  | pause c =>
    cases hr : s.roles AWACRole.pauser c with
    | true => exact ⟨c, Or.inl rfl, hr⟩
    | false =>
      exfalso
      apply hne
      unfold AWAC.run AWAC.exec AWAC.pause
      simp [hr]
  | unpause c =>
    cases hr : s.roles AWACRole.pauser c with
    | true => exact ⟨c, Or.inr rfl, hr⟩
    | false =>
      exfalso
      apply hne
      unfold AWAC.run AWAC.exec AWAC.unpause
      simp [hr]
  | setMaxClaimAmount c v =>
    exfalso
    apply hne
    unfold AWAC.run AWAC.exec AWAC.setMaxClaimAmount
    cases hr : s.roles AWACRole.admin c <;> simp [hr]
  | emergencyWithdraw c amt =>
    exfalso
    apply hne
    unfold AWAC.run AWAC.exec AWAC.emergencyWithdraw
    cases hr : s.roles AWACRole.admin c with
    | false => simp [hr]
    | true =>
      by_cases h0 : 0 < (if env.selfBalance < amt then env.selfBalance else amt)
      · cases ht : env.transferOk c (if env.selfBalance < amt then env.selfBalance else amt) with
        | false => simp [hr, h0, ht]
        | true => simp [hr, h0, ht]
      · simp [hr, h0]
  | grantAdminRole c t =>
    exfalso
    apply hne
    unfold AWAC.run AWAC.exec AWAC.grantAdminRole AWAC.grantRoleImpl
    cases hr : s.roles AWACRole.defaultAdmin c <;> simp [hr]
  | revokeAdminRole c t =>
    exfalso
    apply hne
    unfold AWAC.run AWAC.exec AWAC.revokeAdminRole AWAC.revokeRoleImpl
    cases hr : s.roles AWACRole.defaultAdmin c <;> simp [hr]
  | grantPauserRole c t =>
    exfalso
    apply hne
    unfold AWAC.run AWAC.exec AWAC.grantPauserRole AWAC.grantRoleImpl
    cases hr : s.roles AWACRole.admin c <;> simp [hr]
  | revokePauserRole c t =>
    exfalso
    apply hne
    unfold AWAC.run AWAC.exec AWAC.revokePauserRole AWAC.revokeRoleImpl
    cases hr : s.roles AWACRole.admin c <;> simp [hr]
  | grantClaimManagerRole c t =>
    exfalso
    apply hne
    unfold AWAC.run AWAC.exec AWAC.grantClaimManagerRole AWAC.grantRoleImpl
    cases hr : s.roles AWACRole.admin c <;> simp [hr]
  | revokeClaimManagerRole c t =>
    exfalso
    apply hne
    unfold AWAC.run AWAC.exec AWAC.revokeClaimManagerRole AWAC.revokeRoleImpl
    cases hr : s.roles AWACRole.admin c <;> simp [hr]

/-- No upgradeable `Airdrop` entry point ever clears a recorded claim:
`hasClaimed` is monotone under every operation, root rotation included. -/
theorem Airdrop.run_preserves_hasClaimed (env : ChainEnv) (op : AirdropOp)
    (s : AirdropState) (a : Nat) (h : s.hasClaimed a = true) :
    (Airdrop.run env op s).hasClaimed a = true := by
  cases op with
  | claim caller amount proof =>
    unfold Airdrop.run Airdrop.exec
    cases hres : Airdrop.claim env.mintOk s caller amount proof with
    | error e =>
      simp only [hres]
      exact h
    | ok r =>
      obtain ⟨s2, fx⟩ := r
      obtain ⟨hs2, -⟩ := Airdrop.claimUpOkState env.mintOk s caller amount proof s2 fx hres
      subst hs2
      simp only [hres]
      by_cases hac : a = caller <;> simp [hac, h]
  | setMerkleRoot c newRoot =>
    unfold Airdrop.run Airdrop.exec Airdrop.setMerkleRoot
    cases hr : s.roles DEFAULT_ADMIN_ROLE c <;> simp [hr, h]
  | grantRole c roleId t =>
    unfold Airdrop.run Airdrop.exec Airdrop.grantRole
    cases hr : s.roles DEFAULT_ADMIN_ROLE c <;> simp [hr, h]
  | revokeRole c roleId t =>
    unfold Airdrop.run Airdrop.exec Airdrop.revokeRole
    cases hr : s.roles DEFAULT_ADMIN_ROLE c <;> simp [hr, h]

/-- The side-annotated recomputation ignores the sides: wherever each
sibling is placed, the sorted pairing yields the same running hash. -/
theorem processProofSided_eq : ∀ (proof : List (B32 × Bool)) (leaf : B32),
    processProofSided leaf proof = processProof leaf (proof.map Prod.fst)
  | [], leaf => rfl
  | ⟨s, false⟩ :: rest, leaf => by
    show processProofSided (ozHashPair leaf s) rest =
      processProof (ozHashPair leaf s) (rest.map Prod.fst)
    exact processProofSided_eq rest (ozHashPair leaf s)
  | ⟨s, true⟩ :: rest, leaf => by
    show processProofSided (ozHashPair s leaf) rest =
      processProof (ozHashPair leaf s) (rest.map Prod.fst)
    rw [ozHashPair_comm s leaf]
    exact processProofSided_eq rest (ozHashPair leaf s)

/-- A successful root rotation replaces only the root. -/
theorem Airdrop.setMerkleRoot_ok_state (s : AirdropState) (caller : Nat) (newRoot : B32)
    (s2 : AirdropState) (fx : List Eff)
    (h : Airdrop.setMerkleRoot s caller newRoot = .ok (s2, fx)) :
    s2 = { s with merkleRoot := newRoot } ∧ s2.hasClaimed = s.hasClaimed := by
  unfold Airdrop.setMerkleRoot at h
  split at h
  · cases h
    exact ⟨rfl, rfl⟩
  · cases h

/-- A `true` pre-check pins down every guard of steps 1–6. -/
theorem AWAC.canClaim_true_parts (s : AWACState) (account amount : Nat) (proof : List B32)
    (h : AWAC.canClaim s account amount proof = true) :
    s.isPaused = false ∧ s.isClaimed account = false ∧ amount ≠ 0 ∧
    ¬ s.maxClaimAmount < amount ∧
    verify proof s.merkleRoot (B32.leafAA account amount) = true := by
  unfold AWAC.canClaim at h
  cases hp : s.isPaused with
  | true =>
    rw [hp, if_pos rfl] at h
    exact absurd h Bool.false_ne_true
  | false =>
    rw [hp, if_neg Bool.false_ne_true] at h
    cases hc : s.isClaimed account with
    | true =>
      rw [hc, if_pos rfl] at h
      exact absurd h Bool.false_ne_true
    | false =>
      rw [hc, if_neg Bool.false_ne_true] at h
      by_cases hz : amount = 0
      · rw [if_pos hz] at h
        exact absurd h Bool.false_ne_true
      · rw [if_neg hz] at h
        by_cases hmax : s.maxClaimAmount < amount
        · rw [if_pos hmax] at h
          exact absurd h Bool.false_ne_true
        · rw [if_neg hmax] at h
          exact ⟨rfl, rfl, hz, hmax, h⟩

/-- When validation passes but the external mint reverts, the whole claim
reverts with the mint failure. -/
theorem AWAC.claim_mintRevert_of (mintOk : Nat → Nat → Bool) (s : AWACState)
    (caller amount : Nat) (proof : List B32)
    (hp : s.isPaused = false) (hc : s.isClaimed caller = false) (hz : amount ≠ 0)
    (hmax : ¬ s.maxClaimAmount < amount)
    (hv : verify proof s.merkleRoot (B32.leafAA caller amount) = true)
    (hof : ¬ UINT256_MOD ≤ s.totalClaimed + amount)
    (hm : mintOk caller amount = false) :
    AWAC.claim mintOk s caller amount proof = .error Err.MintRevert := by
  unfold AWAC.claim
  simp [hp, hc, hz, hmax, hv, hof, hm]

/-- C6: at every Merkle-verification step the running hash and the next
proof element are combined by sorting the two 32-byte words before
concatenation and hashing; this pairing is commutative, bit-for-bit
identical to the pairing of the off-chain merkletreejs generator
(`sortPairs: true`), and consequently the recomputed root does not depend
on which side each sibling is placed. -/
theorem c6_sorted_pairing_commutative_and_generator_compatible :
    (∀ a b : B32, ozHashPair a b = ozHashPair b a) ∧
    (∀ a b : B32, ozHashPair a b = mtjsPairHash a b) ∧
    (∀ (leaf : B32) (proof : List (B32 × Bool)),
      processProofSided leaf proof = processProof leaf (proof.map Prod.fst)) :=
  ⟨ozHashPair_comm, ozHashPair_eq_mtjsPairHash,
   fun leaf proof => processProofSided_eq proof leaf⟩

/-- C4, counterexample: on a state committing to the single entitlement
(address 1, amount 5), with an environment where the token `mint` call
reverts, `canClaim` returns `true` yet the very same `claim` fails — the
pre-check and the full claim outcome do diverge after step 6. -/
theorem c4_counterexample :
    AWAC.canClaim (AWAC.deploy 7 (B32.leafAA 1 5) 9) 1 5 [] = true ∧
    AWAC.claim (fun _ _ => false) (AWAC.deploy 7 (B32.leafAA 1 5) 9) 1 5 [] =
      .error Err.MintRevert := by
  constructor
  · decide
  · rfl

/-- C4, amended: `canClaim` stays in lock-step with the validation phase
(steps 1–6) of `claim`: it returns `true` exactly when `claim` does not
fail with one of the five validation errors.  `claim` can still fail
after validation — on `totalClaimed` overflow or a reverting mint — so
`canClaim = true` does not guarantee that `claim` succeeds. -/
theorem c4_canClaim_validation_lockstep (mintOk : Nat → Nat → Bool) (s : AWACState)
    (account amount : Nat) (proof : List B32) :
    AWAC.canClaim s account amount proof =
      !failsValidation (AWAC.claim mintOk s account amount proof) :=
  AWAC.canClaim_eq_not_failsValidation mintOk s account amount proof

/-- C2: when every validation step passes (and, as the specification
presupposes of the execution phase, the external mint succeeds and the
`totalClaimed` addition does not overflow), `claim` marks the caller's
claim record `true`, increments `totalClaimed` by exactly `amount`,
performs the external mint of exactly `amount` to the caller, and emits
`Claimed(caller, amount)`; the upgradeable variant, which has no
accumulator, likewise marks, mints and emits `AirdropClaimed`. -/
theorem c2_claim_success_effects (mintOk : Nat → Nat → Bool) (s : AWACState)
    (s2 : AirdropState) (caller amount : Nat) (proof proof2 : List B32)
    (hp : s.isPaused = false) (hc : s.isClaimed caller = false) (hz : amount ≠ 0)
    (hmax : amount ≤ s.maxClaimAmount)
    (hv : verify proof s.merkleRoot (B32.leafAA caller amount) = true)
    (hof : s.totalClaimed + amount < UINT256_MOD) (hm : mintOk caller amount = true)
    (hc2 : s2.hasClaimed caller = false)
    (hv2 : verify proof2 s2.merkleRoot (B32.leafAA caller amount) = true) :
    AWAC.claim mintOk s caller amount proof =
      .ok ({ s with isClaimed := fun a => if a = caller then true else s.isClaimed a,
                    totalClaimed := s.totalClaimed + amount },
           [Eff.mintCall caller amount, Eff.claimedEvt caller amount]) ∧
    (AWAC.runClaim mintOk s caller amount proof).isClaimed caller = true ∧
    (AWAC.runClaim mintOk s caller amount proof).totalClaimed = s.totalClaimed + amount ∧
    Airdrop.claim mintOk s2 caller amount proof2 =
      .ok ({ s2 with hasClaimed := fun a => if a = caller then true else s2.hasClaimed a },
           [Eff.mintCall caller amount, Eff.airdropClaimedEvt caller amount]) := by
  have h1 := AWAC.claimOkOf mintOk s caller amount proof hp hc hz
    (Nat.not_lt.mpr hmax) hv (Nat.not_le.mpr hof) hm
  have h2 := Airdrop.claimUpOkOf mintOk s2 caller amount proof2 hc2 hz hv2 hm
  refine ⟨h1, ?_, ?_, h2⟩
  · unfold AWAC.runClaim
    rw [h1]
    simp
  · unfold AWAC.runClaim
    rw [h1]

/-- C2, witness: a two-leaf tree over (address 1, 100) and (address 2,
200); address 1 claims 100 on fresh deployments of both variants. -/
theorem c2_witness :
    (AWAC.runClaim (fun _ _ => true)
      (AWAC.deploy 7 (buildRoot (entLeaves [(1, 100), (2, 200)])) 9) 1 100
      (getProofForLeaf (entLeaves [(1, 100), (2, 200)]) (B32.leafAA 1 100))).isClaimed 1 =
      true ∧
    (AWAC.runClaim (fun _ _ => true)
      (AWAC.deploy 7 (buildRoot (entLeaves [(1, 100), (2, 200)])) 9) 1 100
      (getProofForLeaf (entLeaves [(1, 100), (2, 200)]) (B32.leafAA 1 100))).totalClaimed =
      (AWAC.deploy 7 (buildRoot (entLeaves [(1, 100), (2, 200)])) 9).totalClaimed + 100 := by
  have h := c2_claim_success_effects (fun _ _ => true)
    (AWAC.deploy 7 (buildRoot (entLeaves [(1, 100), (2, 200)])) 9)
    (Airdrop.deployInit 7 (buildRoot (entLeaves [(1, 100), (2, 200)])) 9)
    1 100
    (getProofForLeaf (entLeaves [(1, 100), (2, 200)]) (B32.leafAA 1 100))
    (getProofForLeaf (entLeaves [(1, 100), (2, 200)]) (B32.leafAA 1 100))
    rfl rfl (by decide) (by decide) (by decide) (by decide) rfl rfl (by decide)
  exact ⟨h.2.1, h.2.2.1⟩

/-- C5: a failing claim is atomic.  Any revert of `claim` leaves the whole
storage unchanged, and repeating the failing call any number of times
still leaves it unchanged; in particular, when validation passes but the
external mint reverts, the claim reverts with `MintRevert` (so the
`isClaimed` write and the `totalClaimed` increment made before the mint
are rolled back with it); the indexed `MerkleDistributor` behaves the
same on any of its reverts. -/
theorem c5_failing_claim_atomic :
    (∀ (mintOk : Nat → Nat → Bool) (s : AWACState) (caller amount : Nat)
       (proof : List B32) (e : Err),
       AWAC.claim mintOk s caller amount proof = .error e →
       AWAC.runClaim mintOk s caller amount proof = s ∧
       ∀ n : Nat, (fun st => AWAC.runClaim mintOk st caller amount proof)^[n] s = s) ∧
    (∀ (mintOk : Nat → Nat → Bool) (s : AWACState) (caller amount : Nat)
       (proof : List B32),
       AWAC.canClaim s caller amount proof = true →
       s.totalClaimed + amount < UINT256_MOD →
       mintOk caller amount = false →
       AWAC.claim mintOk s caller amount proof = .error Err.MintRevert) ∧
    (∀ (tOk : Nat → Nat → Bool) (sender : Nat) (s : MDState)
       (index account amount : Nat) (proof : List B32) (e : Err),
       MD.claim tOk sender s index account amount proof = .error e →
       MD.runClaim tOk sender s index account amount proof = s) := by
  refine ⟨?_, ?_, ?_⟩
  · intro mintOk s caller amount proof e herr
    have hfix : AWAC.runClaim mintOk s caller amount proof = s := by
      unfold AWAC.runClaim
      rw [herr]
    exact ⟨hfix, fun n => Function.iterate_fixed hfix n⟩
  · intro mintOk s caller amount proof hcan hof hm
    obtain ⟨hp, hc, hz, hmax, hv⟩ := AWAC.canClaim_true_parts s caller amount proof hcan
    exact AWAC.claim_mintRevert_of mintOk s caller amount proof hp hc hz hmax hv
      (Nat.not_le.mpr hof) hm
  · intro tOk sender s index account amount proof e herr
    unfold MD.runClaim
    rw [herr]

/-- C5, witness: a zero-amount claim fails and leaves the fresh deployment
state intact; a valid claim whose mint reverts fails with `MintRevert`. -/
theorem c5_witness :
    AWAC.runClaim (fun _ _ => true) (AWAC.deploy 7 (B32.U 0) 9) 1 0 [] =
      AWAC.deploy 7 (B32.U 0) 9 ∧
    AWAC.claim (fun _ _ => false) (AWAC.deploy 7 (B32.leafAA 2 6) 9) 2 6 [] =
      .error Err.MintRevert := by
  refine ⟨(c5_failing_claim_atomic.1 (fun _ _ => true) (AWAC.deploy 7 (B32.U 0) 9)
    1 0 [] Err.ZeroAmount rfl).1, ?_⟩
  exact c5_failing_claim_atomic.2.1 (fun _ _ => false) (AWAC.deploy 7 (B32.leafAA 2 6) 9)
    2 6 [] (by decide) (by decide) rfl

/-- C7, counterexample: `MerkleDistributor.claim` has no zero-amount
check.  On a distributor committing to the single indexed entitlement
(index 0, address 1, amount 0), a claim of amount 0 with a valid proof
succeeds (marking index 0 claimed and transferring 0 tokens) instead of
failing with `ZeroAmount`. -/
theorem c7_counterexample :
    MD.claim (fun _ _ => true) 5
      { tokenAddr := 7, merkleRoot := B32.leafIAA 0 1 0, claimedBitMap := fun _ => 0 }
      0 1 0 [] =
      .ok (MD.setClaimed
             { tokenAddr := 7, merkleRoot := B32.leafIAA 0 1 0, claimedBitMap := fun _ => 0 } 0,
           [Eff.transferCall 1 0, Eff.mdClaimedEvt 0 1 0]) := by
  rfl

/-- C7, amended: in the `Airdrop` and `AirdropWithAccessControl` variants
a zero-amount claim fails with `ZeroAmount` (once the earlier guards —
pause and already-claimed — pass); the indexed `MerkleDistributor`
variant performs no zero-amount check, and a zero-amount claim with a
valid proof for an unclaimed index succeeds. -/
theorem c7_zero_amount (mintOk : Nat → Nat → Bool) (s : AWACState) (s2 : AirdropState)
    (caller : Nat) (proof proof2 : List B32)
    (hp : s.isPaused = false) (hc : s.isClaimed caller = false)
    (hc2 : s2.hasClaimed caller = false)
    (tOk : Nat → Nat → Bool) (sender : Nat) (s3 : MDState) (index account : Nat)
    (proof3 : List B32) (hmd : MD.isClaimed s3 index = false)
    (hv3 : verify proof3 s3.merkleRoot (B32.leafIAA index account 0) = true)
    (ht : tOk account 0 = true) :
    AWAC.claim mintOk s caller 0 proof = .error Err.ZeroAmount ∧
    Airdrop.claim mintOk s2 caller 0 proof2 = .error Err.ZeroAmount ∧
    callOk (MD.claim tOk sender s3 index account 0 proof3) = true := by
  refine ⟨?_, ?_, ?_⟩
  · unfold AWAC.claim
    simp [hp, hc]
  · unfold Airdrop.claim
    simp [hc2]
  · rw [MD.claimIdxOkOf tOk sender s3 index account 0 proof3 hmd hv3 ht]
    rfl

/-- C7, witness: fresh deployments; address 1 claims amount 0. -/
theorem c7_witness :
    AWAC.claim (fun _ _ => true) (AWAC.deploy 7 (B32.U 3) 9) 1 0 [] =
      .error Err.ZeroAmount ∧
    Airdrop.claim (fun _ _ => true) (Airdrop.deployInit 7 (B32.U 3) 9) 1 0 [] =
      .error Err.ZeroAmount ∧
    callOk (MD.claim (fun _ _ => true) 5
      { tokenAddr := 7, merkleRoot := B32.leafIAA 4 2 0, claimedBitMap := fun _ => 0 }
      4 2 0 []) = true :=
  c7_zero_amount (fun _ _ => true) (AWAC.deploy 7 (B32.U 3) 9)
    (Airdrop.deployInit 7 (B32.U 3) 9) 1 [] [] rfl rfl rfl
    (fun _ _ => true) 5
    { tokenAddr := 7, merkleRoot := B32.leafIAA 4 2 0, claimedBitMap := fun _ => 0 }
    4 2 [] (by decide) (by decide) rfl

/-- C8: while the pause flag is set, `AirdropWithAccessControl.claim`
fails with the pause error for every caller, amount and proof — proof
validity included — and `canClaim` returns `false`; moreover the pause
flag can only be changed by `pause`/`unpause` called by a holder of the
pauser role.  (The `Airdrop` and `MerkleDistributor` variants have no
pause flag at all, so the gating concerns only this variant.) -/
theorem c8_pause_gating (env : ChainEnv) (s : AWACState)
    (caller account amount amount2 : Nat) (proof proof2 : List B32)
    (hp : s.isPaused = true) :
    AWAC.claim env.mintOk s caller amount proof = .error Err.AirdropPaused ∧
    AWAC.canClaim s account amount2 proof2 = false ∧
    (∀ (op : AWACOp) (s0 : AWACState),
       (AWAC.run env op s0).isPaused ≠ s0.isPaused →
       ∃ c, (op = AWACOp.pause c ∨ op = AWACOp.unpause c) ∧
         s0.roles AWACRole.pauser c = true) := by
  refine ⟨AWAC.claim_paused_of env.mintOk s caller amount proof hp, ?_,
    fun op s0 => AWAC.run_isPaused_change env op s0⟩
  unfold AWAC.canClaim
  simp [hp]

/-- C8, witness: a paused deployment rejects a claim whose proof is valid
for the committed root. -/
theorem c8_witness :
    AWAC.claim envAll.mintOk
      { AWAC.deploy 7 (B32.leafAA 1 5) 9 with isPaused := true } 1 5 [] =
      .error Err.AirdropPaused ∧
    AWAC.canClaim { AWAC.deploy 7 (B32.leafAA 1 5) 9 with isPaused := true } 1 5 [] =
      false := by
  have h := c8_pause_gating envAll { AWAC.deploy 7 (B32.leafAA 1 5) 9 with isPaused := true }
    1 1 5 5 [] [] rfl
  exact ⟨h.1, h.2.1⟩

/-- C9: a recorded claim flag is never reset.  Every entry point of
`AirdropWithAccessControl` (claim, pause/unpause, setMaxClaimAmount,
emergencyWithdraw, role grant/revoke), every entry point of the
upgradeable `Airdrop` (claim, root rotation, role grant/revoke), and
`MerkleDistributor.claim` leave every `true` claim record `true`. -/
theorem c9_claimed_flag_monotone (env : ChainEnv) :
    (∀ (op : AWACOp) (s : AWACState) (a : Nat),
       s.isClaimed a = true → (AWAC.run env op s).isClaimed a = true) ∧
    (∀ (op : AirdropOp) (s : AirdropState) (a : Nat),
       s.hasClaimed a = true → (Airdrop.run env op s).hasClaimed a = true) ∧
    (∀ (tOk : Nat → Nat → Bool) (sender : Nat) (s : MDState)
       (index i2 account amount : Nat) (proof : List B32),
       MD.isClaimed s i2 = true →
       MD.isClaimed (MD.runClaim tOk sender s index account amount proof) i2 = true) := by
  refine ⟨fun op s a h => AWAC.run_preserves_isClaimed env op s a h,
    fun op s a h => Airdrop.run_preserves_hasClaimed env op s a h, ?_⟩
  intro tOk sender s index i2 account amount proof h
  unfold MD.runClaim
  cases hres : MD.claim tOk sender s index account amount proof with
  | error e =>
    simp only [hres]
    exact h
  | ok r =>
    obtain ⟨s2, fx⟩ := r
    obtain ⟨hs2, -⟩ := MD.claimIdxOkState tOk sender s index account amount proof s2 fx hres
    subst hs2
    simp only [hres]
    exact MD.isClaimed_setClaimed_mono s index i2 h

/-- C9, witness: an address marked claimed stays claimed across a pause, a
root rotation, and a distributor claim on another index. -/
theorem c9_witness :
    (AWAC.run envAll (AWACOp.pause 9)
      { AWAC.deploy 7 (B32.U 0) 9 with isClaimed := fun a => a == 1 }).isClaimed 1 = true ∧
    (Airdrop.run envAll (AirdropOp.setMerkleRoot 9 (B32.U 5))
      { Airdrop.deployInit 7 (B32.U 0) 9 with hasClaimed := fun a => a == 1 }).hasClaimed 1 =
      true ∧
    MD.isClaimed (MD.runClaim (fun _ _ => true) 4
      { tokenAddr := 7, merkleRoot := B32.leafIAA 2 3 30, claimedBitMap := fun w => if w = 0 then 2 else 0 }
      2 3 30 []) 1 = true := by
  refine ⟨(c9_claimed_flag_monotone envAll).1 (AWACOp.pause 9) _ 1 (by decide),
    (c9_claimed_flag_monotone envAll).2.1 (AirdropOp.setMerkleRoot 9 (B32.U 5)) _ 1 (by decide),
    (c9_claimed_flag_monotone envAll).2.2 (fun _ _ => true) 4 _ 2 1 3 30 [] (by decide)⟩

/-- C10: the outcome of `MerkleDistributor.claim` is independent of the
transaction sender — two different senders invoking it on the same state
with the same arguments get the same result — and on success the token
transfer targets `account` (not the sender) and the claimed bit of
`index` is set.  Any third party can therefore execute a claim on behalf
of an entitled account. -/
theorem c10_sender_independence (tOk : Nat → Nat → Bool) (s : MDState)
    (sender1 sender2 index account amount : Nat) (proof : List B32) :
    MD.claim tOk sender1 s index account amount proof =
      MD.claim tOk sender2 s index account amount proof ∧
    (∀ (s2 : MDState) (fx : List Eff),
       MD.claim tOk sender1 s index account amount proof = .ok (s2, fx) →
       s2 = MD.setClaimed s index ∧ MD.isClaimed s2 index = true ∧
       Eff.transferCall account amount ∈ fx) := by
  constructor
  · rfl
  · intro s2 fx h
    obtain ⟨hs2, hfx⟩ := MD.claimIdxOkState tOk sender1 s index account amount proof s2 fx h
    subst hs2
    subst hfx
    exact ⟨rfl, MD.isClaimed_setClaimed_self s index, by simp⟩

/-- C10, witness: senders 4 and 8 get identical results; the successful
claim sets the bit of index 0. -/
theorem c10_witness :
    MD.claim (fun _ _ => true) 4
      { tokenAddr := 7, merkleRoot := B32.leafIAA 0 1 5, claimedBitMap := fun _ => 0 }
      0 1 5 [] =
      MD.claim (fun _ _ => true) 8
        { tokenAddr := 7, merkleRoot := B32.leafIAA 0 1 5, claimedBitMap := fun _ => 0 }
        0 1 5 [] ∧
    MD.isClaimed (MD.setClaimed
      { tokenAddr := 7, merkleRoot := B32.leafIAA 0 1 5, claimedBitMap := fun _ => 0 } 0) 0 =
      true := by
  have h := c10_sender_independence (fun _ _ => true)
    { tokenAddr := 7, merkleRoot := B32.leafIAA 0 1 5, claimedBitMap := fun _ => 0 }
    4 8 0 1 5 []
  exact ⟨h.1, (h.2 _ _ rfl).2.1⟩

/-- C3, counterexample: address 1 claims 100 under root R1 (tree over
[(1, 100)]); the admin rotates the root to R2 (tree over [(1, 50)]),
which commits a new entitlement of 50 for the same address with a valid
proof; the second claim does NOT succeed — it reverts with
`AlreadyClaimed`, because `hasClaimed` is keyed by address only and is
not reset by `setMerkleRoot`. -/
theorem c3_counterexample :
    callOk (Airdrop.claim (fun _ _ => true)
      (Airdrop.deployInit 7 (buildRoot (entLeaves [(1, 100)])) 9) 1 100
      (getProofForLeaf (entLeaves [(1, 100)]) (B32.leafAA 1 100))) = true ∧
    verify (getProofForLeaf (entLeaves [(1, 50)]) (B32.leafAA 1 50))
      (buildRoot (entLeaves [(1, 50)])) (B32.leafAA 1 50) = true ∧
    Airdrop.claim (fun _ _ => true)
      (Airdrop.run envAll (AirdropOp.setMerkleRoot 9 (buildRoot (entLeaves [(1, 50)])))
        (Airdrop.runClaim (fun _ _ => true)
          (Airdrop.deployInit 7 (buildRoot (entLeaves [(1, 100)])) 9) 1 100
          (getProofForLeaf (entLeaves [(1, 100)]) (B32.leafAA 1 100))))
      1 50 (getProofForLeaf (entLeaves [(1, 50)]) (B32.leafAA 1 50)) =
      .error Err.AlreadyClaimed := by
  refine ⟨by decide, by decide, ?_⟩
  rfl

/-- C3, amended: rotating the commitment does not reset the claim record.
An address that has already claimed cannot claim again, whatever root the
administrator installs and whatever new entitlement it contains: its
claims keep failing with `AlreadyClaimed` both before and after
`setMerkleRoot`, and `setMerkleRoot` leaves `hasClaimed` untouched.
(What rotation does allow is a first claim by an address that has not
claimed yet, against the new root.) -/
theorem c3_claimed_persists_across_root_rotation (mintOk : Nat → Nat → Bool)
    (s : AirdropState) (caller admin : Nat) (newRoot : B32)
    (h : s.hasClaimed caller = true) :
    (∀ (amount : Nat) (proof : List B32),
       Airdrop.claim mintOk s caller amount proof = .error Err.AlreadyClaimed) ∧
    (∀ (s2 : AirdropState) (fx : List Eff),
       Airdrop.setMerkleRoot s admin newRoot = .ok (s2, fx) →
       s2.hasClaimed = s.hasClaimed ∧
       ∀ (amount : Nat) (proof : List B32),
         Airdrop.claim mintOk s2 caller amount proof = .error Err.AlreadyClaimed) := by
  refine ⟨fun amount proof => Airdrop.claimUpAlreadyOf mintOk s caller amount proof h, ?_⟩
  intro s2 fx hok
  obtain ⟨-, hhc⟩ := Airdrop.setMerkleRoot_ok_state s admin newRoot s2 fx hok
  refine ⟨hhc, fun amount proof => Airdrop.claimUpAlreadyOf mintOk s2 caller amount proof ?_⟩
  rw [hhc]
  exact h

/-- C3, witness: address 1 is recorded as claimed; its claims fail with
`AlreadyClaimed` before and after the admin rotates the root. -/
theorem c3_witness :
    Airdrop.claim (fun _ _ => true)
      { Airdrop.deployInit 7 (B32.U 0) 9 with hasClaimed := fun a => a == 1 } 1 100 [] =
      .error Err.AlreadyClaimed ∧
    Airdrop.claim (fun _ _ => true)
      { tokenAddr := 7, merkleRoot := B32.U 5, hasClaimed := fun a => a == 1,
        roles := fun r a => r == DEFAULT_ADMIN_ROLE && a == 9 } 1 50 [] =
      .error Err.AlreadyClaimed := by
  have h := c3_claimed_persists_across_root_rotation (fun _ _ => true)
    { Airdrop.deployInit 7 (B32.U 0) 9 with hasClaimed := fun a => a == 1 }
    1 9 (B32.U 5) (by decide)
  have h2 := h.2
    { tokenAddr := 7, merkleRoot := B32.U 5, hasClaimed := fun a => a == 1,
      roles := fun r a => r == DEFAULT_ADMIN_ROLE && a == 9 }
    [Eff.merkleRootUpdatedEvt (B32.U 5)] (by rfl)
  exact ⟨h.1 100 [], h2.2 50 []⟩

/-- C1, counterexample: the committed tree over the single entitlement
(address 1, amount 0) has a correctly generated proof for that pair, yet
`canClaim` returns `false` and `claim` fails with `ZeroAmount` in both
mapping-based variants — an entitlement present in the tree is not
unconditionally claimable. -/
theorem c1_counterexample :
    B32.leafAA 1 0 ∈ entLeaves [(1, 0)] ∧
    AWAC.canClaim (AWAC.deploy 7 (buildRoot (entLeaves [(1, 0)])) 9) 1 0
      (getProofForLeaf (entLeaves [(1, 0)]) (B32.leafAA 1 0)) = false ∧
    AWAC.claim (fun _ _ => true) (AWAC.deploy 7 (buildRoot (entLeaves [(1, 0)])) 9) 1 0
      (getProofForLeaf (entLeaves [(1, 0)]) (B32.leafAA 1 0)) = .error Err.ZeroAmount ∧
    Airdrop.claim (fun _ _ => true) (Airdrop.deployInit 7 (buildRoot (entLeaves [(1, 0)])) 9)
      1 0 (getProofForLeaf (entLeaves [(1, 0)]) (B32.leafAA 1 0)) =
      .error Err.ZeroAmount := by
  exact ⟨by decide, by decide, rfl, rfl⟩

/-- C1, amended: for every entitlement `(a, amt)` at position `i` of the
committed tree, with the proof generated by the off-chain builder
(`getHexProof`), and provided the entitlement is actually claimable —
amount nonzero, within `MaxClaimAmount`, contract unpaused, address (or
index) not yet claimed, external mint/transfer succeeding, no
`totalClaimed` overflow — `canClaim` returns `true`, the first `claim`
succeeds, and every further claim by the same address (same index in the
indexed `MerkleDistributor` variant) fails with `AlreadyClaimed`. -/
theorem c1_entitled_claims_once
    (es : List (Nat × Nat)) (i a amt : Nat) (hent : es[i]? = some (a, amt))
    (mintOk : Nat → Nat → Bool) (s : AWACState)
    (hroot : s.merkleRoot = buildRoot (entLeaves es))
    (hp : s.isPaused = false) (hc : s.isClaimed a = false) (hz : amt ≠ 0)
    (hmax : amt ≤ s.maxClaimAmount) (hof : s.totalClaimed + amt < UINT256_MOD)
    (hm : mintOk a amt = true)
    (s2 : AirdropState) (hroot2 : s2.merkleRoot = buildRoot (entLeaves es))
    (hc2 : s2.hasClaimed a = false)
    (tOk : Nat → Nat → Bool) (sender : Nat) (s3 : MDState)
    (hroot3 : s3.merkleRoot = buildRoot (mdLeaves es))
    (hc3 : MD.isClaimed s3 i = false) (ht : tOk a amt = true) :
    AWAC.canClaim s a amt (getProofForLeaf (entLeaves es) (B32.leafAA a amt)) = true ∧
    callOk (AWAC.claim mintOk s a amt
      (getProofForLeaf (entLeaves es) (B32.leafAA a amt))) = true ∧
    (∀ (amt2 : Nat) (proof2 : List B32),
       AWAC.claim mintOk
         (AWAC.runClaim mintOk s a amt (getProofForLeaf (entLeaves es) (B32.leafAA a amt)))
         a amt2 proof2 = .error Err.AlreadyClaimed) ∧
    callOk (Airdrop.claim mintOk s2 a amt
      (getProofForLeaf (entLeaves es) (B32.leafAA a amt))) = true ∧
    (∀ (amt2 : Nat) (proof2 : List B32),
       Airdrop.claim mintOk
         (Airdrop.runClaim mintOk s2 a amt (getProofForLeaf (entLeaves es) (B32.leafAA a amt)))
         a amt2 proof2 = .error Err.AlreadyClaimed) ∧
    callOk (MD.claim tOk sender s3 i a amt
      (getProofForLeaf (mdLeaves es) (B32.leafIAA i a amt))) = true ∧
    (∀ (sender2 a2 amt2 : Nat) (proof2 : List B32),
       MD.claim tOk sender2
         (MD.runClaim tOk sender s3 i a amt (getProofForLeaf (mdLeaves es) (B32.leafIAA i a amt)))
         i a2 amt2 proof2 = .error Err.MDAlreadyClaimed) := by
  have hAAleaf : (entLeaves es)[i]? = some (B32.leafAA a amt) := by
    unfold entLeaves
    rw [List.getElem?_map, hent]
    rfl
  have hmemAA : B32.leafAA a amt ∈ entLeaves es := List.getElem?_mem hAAleaf
  have hvAA : verify (getProofForLeaf (entLeaves es) (B32.leafAA a amt))
      (buildRoot (entLeaves es)) (B32.leafAA a amt) = true :=
    verify_getProofForLeaf _ _ hmemAA
  have hIAAleaf : (mdLeaves es)[i]? = some (B32.leafIAA i a amt) := by
    have h0 := mdLeavesAux_getElem es 0 i a amt hent
    rw [Nat.zero_add] at h0
    exact h0
  have hmemIAA : B32.leafIAA i a amt ∈ mdLeaves es := List.getElem?_mem hIAAleaf
  have hvIAA : verify (getProofForLeaf (mdLeaves es) (B32.leafIAA i a amt))
      (buildRoot (mdLeaves es)) (B32.leafIAA i a amt) = true :=
    verify_getProofForLeaf _ _ hmemIAA
  have hvS : verify (getProofForLeaf (entLeaves es) (B32.leafAA a amt))
      s.merkleRoot (B32.leafAA a amt) = true := by
    rw [hroot]; exact hvAA
  have hvS2 : verify (getProofForLeaf (entLeaves es) (B32.leafAA a amt))
      s2.merkleRoot (B32.leafAA a amt) = true := by
    rw [hroot2]; exact hvAA
  have hvS3 : verify (getProofForLeaf (mdLeaves es) (B32.leafIAA i a amt))
      s3.merkleRoot (B32.leafIAA i a amt) = true := by
    rw [hroot3]; exact hvIAA
  have h1 := AWAC.claimOkOf mintOk s a amt _ hp hc hz (Nat.not_lt.mpr hmax) hvS
    (Nat.not_le.mpr hof) hm
  have h2 := Airdrop.claimUpOkOf mintOk s2 a amt _ hc2 hz hvS2 hm
  have h3 := MD.claimIdxOkOf tOk sender s3 i a amt _ hc3 hvS3 ht
  have hrun1 : AWAC.runClaim mintOk s a amt (getProofForLeaf (entLeaves es) (B32.leafAA a amt)) =
      { s with isClaimed := fun x => if x = a then true else s.isClaimed x,
               totalClaimed := s.totalClaimed + amt } := by
    unfold AWAC.runClaim
    rw [h1]
  have hrun2 : Airdrop.runClaim mintOk s2 a amt
      (getProofForLeaf (entLeaves es) (B32.leafAA a amt)) =
      { s2 with hasClaimed := fun x => if x = a then true else s2.hasClaimed x } := by
    unfold Airdrop.runClaim
    rw [h2]
  have hrun3 : MD.runClaim tOk sender s3 i a amt
      (getProofForLeaf (mdLeaves es) (B32.leafIAA i a amt)) = MD.setClaimed s3 i := by
    unfold MD.runClaim
    rw [h3]
  refine ⟨?_, ?_, ?_, ?_, ?_, ?_, ?_⟩
  · unfold AWAC.canClaim
    simp [hp, hc, hz, Nat.not_lt.mpr hmax, hvS]
  · rw [h1]
    rfl
  · intro amt2 proof2
    rw [hrun1]
    apply AWAC.claimAlreadyOf
    · exact hp
    · simp
  · rw [h2]
    rfl
  · intro amt2 proof2
    rw [hrun2]
    apply Airdrop.claimUpAlreadyOf
    simp
  · rw [h3]
    rfl
  · intro sender2 a2 amt2 proof2
    rw [hrun3]
    apply MD.claimIdxAlreadyOf
    exact MD.isClaimed_setClaimed_self s3 i

/-- C1, witness: the tree over [(1, 100), (2, 200)]; address 1 claims 100
on fresh deployments of all three variants and cannot claim twice. -/
theorem c1_witness :
    AWAC.canClaim (AWAC.deploy 7 (buildRoot (entLeaves [(1, 100), (2, 200)])) 9) 1 100
      (getProofForLeaf (entLeaves [(1, 100), (2, 200)]) (B32.leafAA 1 100)) = true ∧
    callOk (AWAC.claim (fun _ _ => true)
      (AWAC.deploy 7 (buildRoot (entLeaves [(1, 100), (2, 200)])) 9) 1 100
      (getProofForLeaf (entLeaves [(1, 100), (2, 200)]) (B32.leafAA 1 100))) = true ∧
    AWAC.claim (fun _ _ => true)
      (AWAC.runClaim (fun _ _ => true)
        (AWAC.deploy 7 (buildRoot (entLeaves [(1, 100), (2, 200)])) 9) 1 100
        (getProofForLeaf (entLeaves [(1, 100), (2, 200)]) (B32.leafAA 1 100)))
      1 100 (getProofForLeaf (entLeaves [(1, 100), (2, 200)]) (B32.leafAA 1 100)) =
      .error Err.AlreadyClaimed ∧
    callOk (MD.claim (fun _ _ => true) 4
      { tokenAddr := 7, merkleRoot := buildRoot (mdLeaves [(1, 100), (2, 200)]),
        claimedBitMap := fun _ => 0 } 0 1 100
      (getProofForLeaf (mdLeaves [(1, 100), (2, 200)]) (B32.leafIAA 0 1 100))) = true ∧
    (∀ (sender2 a2 amt2 : Nat) (proof2 : List B32),
       MD.claim (fun _ _ => true) sender2
         (MD.runClaim (fun _ _ => true) 4
           { tokenAddr := 7, merkleRoot := buildRoot (mdLeaves [(1, 100), (2, 200)]),
             claimedBitMap := fun _ => 0 } 0 1 100
           (getProofForLeaf (mdLeaves [(1, 100), (2, 200)]) (B32.leafIAA 0 1 100)))
         0 a2 amt2 proof2 = .error Err.MDAlreadyClaimed) := by
  have h := c1_entitled_claims_once [(1, 100), (2, 200)] 0 1 100 rfl
    (fun _ _ => true) (AWAC.deploy 7 (buildRoot (entLeaves [(1, 100), (2, 200)])) 9)
    rfl rfl rfl (by decide) (by decide) (by decide) rfl
    (Airdrop.deployInit 7 (buildRoot (entLeaves [(1, 100), (2, 200)])) 9) rfl rfl
    (fun _ _ => true) 4
    { tokenAddr := 7, merkleRoot := buildRoot (mdLeaves [(1, 100), (2, 200)]),
      claimedBitMap := fun _ => 0 }
    rfl (by decide) rfl
  exact ⟨h.1, h.2.1,
    h.2.2.1 100 (getProofForLeaf (entLeaves [(1, 100), (2, 200)]) (B32.leafAA 1 100)),
    h.2.2.2.2.2.1, h.2.2.2.2.2.2⟩
